import Mathlib

/-!
Verification of the dynamic query / partial-update construction layer of a
jobs/companies record-management backend.

The JavaScript sources are embedded shallowly:

* JavaScript values appearing in query payloads become the inductive `JSVal`
  (strings, integers, booleans, `null`).
* A JavaScript object literal (an update payload or a filter query) becomes an
  association list `List (String × JSVal)` in key-insertion order; `Object.keys`
  is `List.map Prod.fst`, `Object.values` is `List.map Prod.snd` (JavaScript
  enumerates string keys in insertion order).
* Thrown errors become the `Except JsError` monad, with `JsError` carrying the
  error class and message of the source (`BadRequestError`, `NotFoundError`,
  and the built-in `TypeError`).
* Template-literal number interpolation (base-10 rendering) is `decimalRepr`,
  a fuel-based executable decimal printer.
* The database is an external collaborator: repository functions that run SQL
  are parameterized by an executor `String → List JSVal → List <row>` exactly
  as the layer hands `db.query` a text and an ordered parameter list.
-/

/-- JavaScript values that flow through update payloads and filter queries. -/
inductive JSVal : Type where
  | str (s : String)
  | num (n : Int)
  | bool (b : Bool)
  | null
deriving DecidableEq

/-- Errors thrown by the layer: the two `expressError` classes it raises plus
the JavaScript built-in `TypeError` (thrown, e.g., by `Object.keys(null)`). -/
inductive JsError : Type where
  | badRequest (msg : String)
  | notFound (msg : String)
  | typeError (msg : String)
deriving DecidableEq

/-- JavaScript truthiness for the embedded values. -/
def jsTruthy : JSVal → Bool
  | .str s => s ≠ ""
  | .num n => n ≠ 0
  | .bool b => b
  | .null => false

/-- Decimal digit character for `d % 10`, built so that `toNat` computes by
`rfl` (`digitCharOf 3 = '3'`). -/
def digitCharOf (d : Nat) : Char :=
  Char.ofNatAux (48 + d % 10) (Or.inl (by omega))

/-- Fuel-based base-10 printer loop: emits the digits of `n` in front of
`acc`. Any `fuel > n` is enough fuel. -/
def decimalReprGo : Nat → Nat → List Char → List Char
  | 0, _, acc => acc
  | fuel + 1, n, acc =>
    let acc' := digitCharOf (n % 10) :: acc
    if n < 10 then acc' else decimalReprGo fuel (n / 10) acc'

/-- Base-10 rendering of a natural number, as JavaScript template literals
render the nonnegative numbers interpolated by this layer (`$<idx+1>`). -/
def decimalRepr (n : Nat) : String :=
  ⟨decimalReprGo (n + 1) n []⟩

/-- Base-10 rendering of an integer. -/
def intRepr (n : Int) : String :=
  if n < 0 then "-" ++ decimalRepr n.natAbs else decimalRepr n.natAbs

/-- JavaScript string coercion of the embedded values (as in template
literals). -/
def jsToString : JSVal → String
  | .str s => s
  | .num n => intRepr n
  | .bool true => "true"
  | .bool false => "false"
  | .null => "null"

/-- A decimal digit character: code point between `'0'` (48) and `'9'` (57). -/
def isDigitChar (c : Char) : Bool :=
  decide (48 ≤ c.toNat ∧ c.toNat ≤ 57)

/-- Parse a list of decimal digit characters as a natural number. -/
def natOfDigits (cs : List Char) : Nat :=
  cs.foldl (fun a c => 10 * a + (c.toNat - 48)) 0

/-- The maximal run of decimal digits at the end of a string. -/
def trailingDigits (s : String) : List Char :=
  (s.data.reverse.takeWhile isDigitChar).reverse

/-- The numeric value of the digit run ending a string: for a fragment such as
`"name"=$12` this is the `$`-placeholder's ordinal 12. -/
def trailingNat (s : String) : Nat :=
  natOfDigits (trailingDigits s)

theorem digitCharOf_toNat (d : Nat) : (digitCharOf d).toNat = 48 + d % 10 := rfl

theorem isDigitChar_digitCharOf (d : Nat) : isDigitChar (digitCharOf d) = true := by
  simp only [isDigitChar, digitCharOf_toNat, decide_eq_true_eq]
  omega

theorem decimalReprGo_append (fuel n : Nat) (acc : List Char) (h : n < fuel) :
    decimalReprGo fuel n acc = decimalReprGo fuel n [] ++ acc := by
  induction fuel generalizing n acc with
  | zero => omega
  | succ fuel ih =>
    simp only [decimalReprGo]
    by_cases h10 : n < 10
    · simp [h10]
    · simp only [h10, if_false]
      rw [ih (n / 10) _ (by omega), ih (n / 10) [digitCharOf (n % 10)] (by omega),
        List.append_assoc]
      simp

theorem decimalReprGo_digits (fuel n : Nat) (h : n < fuel) :
    ∀ c ∈ decimalReprGo fuel n [], isDigitChar c = true := by
  induction fuel generalizing n with
  | zero => omega
  | succ fuel ih =>
    intro c hc
    simp only [decimalReprGo] at hc
    by_cases h10 : n < 10
    · simp [h10] at hc
      simp [hc, isDigitChar_digitCharOf]
    · simp only [h10, if_false] at hc
      rw [decimalReprGo_append fuel (n / 10) _ (by omega)] at hc
      rcases List.mem_append.mp hc with h1 | h2
      · exact ih (n / 10) (by omega) c h1
      · simp at h2
        simp [h2, isDigitChar_digitCharOf]

theorem decimalReprGo_foldl (fuel n a : Nat) (h : n < fuel) :
    (decimalReprGo fuel n []).foldl (fun a c => 10 * a + (c.toNat - 48)) a
      = a * 10 ^ (decimalReprGo fuel n []).length + n := by
  induction fuel generalizing n a with
  | zero => omega
  | succ fuel ih =>
    simp only [decimalReprGo]
    by_cases h10 : n < 10
    · simp [h10, List.foldl, digitCharOf_toNat]
      omega
    · simp only [h10, if_false]
      rw [decimalReprGo_append fuel (n / 10) _ (by omega), List.foldl_append,
        List.length_append]
      simp only [List.foldl, List.length]
      rw [ih (n / 10) a (by omega)]
      have hmod : 10 * (n / 10) + n % 10 = n := by omega
      have : (digitCharOf (n % 10)).toNat - 48 = n % 10 := by
        rw [digitCharOf_toNat]; omega
      rw [this, pow_add]
      ring_nf
      omega

/-- Parsing inverts printing: the decimal digits of `n` read back as `n`. -/
theorem natOfDigits_decimalRepr (n : Nat) : natOfDigits (decimalRepr n).data = n := by
  have := decimalReprGo_foldl (n + 1) n 0 (by omega)
  simpa [natOfDigits, decimalRepr] using this

/-- Every character of `decimalRepr n` is a decimal digit. -/
theorem decimalRepr_digits (n : Nat) : ∀ c ∈ (decimalRepr n).data, isDigitChar c = true :=
  decimalReprGo_digits (n + 1) n (by omega)

theorem takeWhile_all_append (p : Char → Bool) (l1 : List Char) (x : Char) (l2 : List Char)
    (h1 : ∀ c ∈ l1, p c = true) (hx : p x = false) :
    (l1 ++ x :: l2).takeWhile p = l1 := by
  induction l1 with
  | nil => simp [List.takeWhile, hx]
  | cons c cs ih =>
    have hc : p c = true := h1 c (by simp)
    simp only [List.cons_append, List.takeWhile, hc, List.append_eq]
    rw [ih (fun c hc => h1 c (by simp [hc]))]

/-- Extracting the trailing digit run of `pre ++ "$" ++ decimalRepr n`
recovers `n`, whatever `pre` is: the `$`-placeholder ordinal a fragment ends
with is exactly the number that was printed into it. -/
theorem trailingNat_append (pre : String) (n : Nat) :
    trailingNat (pre ++ "$" ++ decimalRepr n) = n := by
  have hdata : (pre ++ "$" ++ decimalRepr n).data
      = pre.data ++ '$' :: (decimalRepr n).data := by
    simp [String.data_append]
  have hdollar : isDigitChar '$' = false := by decide
  have hrev : (pre.data ++ '$' :: (decimalRepr n).data).reverse
      = (decimalRepr n).data.reverse ++ '$' :: pre.data.reverse := by
    simp
  simp only [trailingNat, trailingDigits, hdata, hrev]
  rw [takeWhile_all_append isDigitChar _ '$' _
      (fun c hc => decimalRepr_digits n c (List.mem_reverse.mp hc)) hdollar,
    List.reverse_reverse]
  exact natOfDigits_decimalRepr n

/-! ## The partial-update builder (`src/helpers/sql.js`)

`sqlForPartialUpdate(dataToUpdate, jsToSql)` throws `BadRequestError("No
data")` on an empty payload, else renders one `"<column>"=$<idx+1>` fragment
per key in iteration order (translating the key through `jsToSql` when the
translation is present and truthy — JavaScript `jsToSql[colName] || colName`)
and returns the comma-joined fragments with the payload's values in the same
order. -/

/-- Column-name translation `jsToSql[colName] || colName`: the translated name
when present and non-empty (JavaScript `||` also skips a falsy empty string),
else the key verbatim. -/
def translateCol (jsToSql : List (String × String)) (colName : String) : String :=
  match jsToSql.lookup colName with
  | some s => if s = "" then colName else s
  | none => colName

/-- The fragment list `keys.map((colName, idx) => `"${jsToSql[colName] ||
colName}"=$${idx + 1}`)` of `sqlForPartialUpdate`. -/
def sqlSetFragments (keys : List String) (jsToSql : List (String × String)) : List String :=
  keys.enum.map fun p => "\"" ++ translateCol jsToSql p.2 ++ "\"=" ++ "$" ++ decimalRepr (p.1 + 1)

/-- Result value of `sqlForPartialUpdate`: the `SET` clause text and the
ordered bound values. -/
structure SetClauseResult : Type where
  setCols : String
  values : List JSVal
deriving DecidableEq

/-- Embedding of `sqlForPartialUpdate` (src/helpers/sql.js lines 24–39). -/
def sqlForPartialUpdate (dataToUpdate : List (String × JSVal))
    (jsToSql : List (String × String)) : Except JsError SetClauseResult :=
  let keys := dataToUpdate.map Prod.fst
  if keys.length = 0 then .error (.badRequest "No data")
  else
    .ok { setCols := String.intercalate ", " (sqlSetFragments keys jsToSql)
          values := dataToUpdate.map Prod.snd }

/-- C1: for every non-empty update payload and every translation table,
`sqlForPartialUpdate` returns a `setCols` string built from one fragment per
value (so the number of `$`-placeholders equals the length of the returned
values sequence), the placeholder ordinals are exactly 1..n in left-to-right
order with no gaps (the i-th fragment's ordinal is `i + 1`), and the i-th
placeholder corresponds to the i-th value (the values are the payload's
values in the same key order). -/
theorem sqlForPartialUpdate_placeholder_sync (dataToUpdate : List (String × JSVal))
    (jsToSql : List (String × String)) (res : SetClauseResult)
    (hne : dataToUpdate ≠ [])
    (hok : sqlForPartialUpdate dataToUpdate jsToSql = .ok res) :
    res.values = dataToUpdate.map Prod.snd ∧
    (sqlSetFragments (dataToUpdate.map Prod.fst) jsToSql).length = res.values.length ∧
    (∀ i (h : i < (sqlSetFragments (dataToUpdate.map Prod.fst) jsToSql).length),
      trailingNat ((sqlSetFragments (dataToUpdate.map Prod.fst) jsToSql).get ⟨i, h⟩)
        = i + 1) ∧
    res.setCols = String.intercalate ", " (sqlSetFragments (dataToUpdate.map Prod.fst) jsToSql) := by
  simp only [sqlForPartialUpdate] at hok
  rw [if_neg (by simp [hne])] at hok
  have hres := Except.ok.inj hok
  subst hres
  refine ⟨rfl, by simp [sqlSetFragments], ?_, rfl⟩
  intro i h
  have hget : (sqlSetFragments (dataToUpdate.map Prod.fst) jsToSql).get ⟨i, h⟩
      = "\"" ++ translateCol jsToSql ((dataToUpdate.map Prod.fst).enum.get
          ⟨i, by simpa [sqlSetFragments] using h⟩).2 ++ "\"=" ++ "$"
        ++ decimalRepr (((dataToUpdate.map Prod.fst).enum.get
          ⟨i, by simpa [sqlSetFragments] using h⟩).1 + 1) := by
    simp [sqlSetFragments]
  rw [hget]
  have henum : ((dataToUpdate.map Prod.fst).enum.get
      ⟨i, by simpa [sqlSetFragments] using h⟩).1 = i := by
    have := List.getElem_enum (dataToUpdate.map Prod.fst) i
      (by simpa [sqlSetFragments] using h)
    simp [List.get_eq_getElem, this]
  rw [henum]
  exact trailingNat_append _ (i + 1)

theorem sqlForPartialUpdate_placeholder_sync_witness :
    ({ setCols := "\"first_name\"=$1, \"age\"=$2",
       values := [JSVal.str "Aliya", JSVal.num 32] } : SetClauseResult).values
      = ([("firstName", JSVal.str "Aliya"), ("age", JSVal.num 32)].map Prod.snd) ∧
    (sqlSetFragments ["firstName", "age"] [("firstName", "first_name")]).length
      = ([JSVal.str "Aliya", JSVal.num 32] : List JSVal).length ∧
    (∀ i (h : i < (sqlSetFragments ["firstName", "age"] [("firstName", "first_name")]).length),
      trailingNat ((sqlSetFragments ["firstName", "age"] [("firstName", "first_name")]).get ⟨i, h⟩)
        = i + 1) ∧
    "\"first_name\"=$1, \"age\"=$2"
      = String.intercalate ", " (sqlSetFragments ["firstName", "age"] [("firstName", "first_name")]) := by
  have := sqlForPartialUpdate_placeholder_sync
    [("firstName", JSVal.str "Aliya"), ("age", JSVal.num 32)]
    [("firstName", "first_name")]
    { setCols := "\"first_name\"=$1, \"age\"=$2",
      values := [JSVal.str "Aliya", JSVal.num 32] }
    (by decide) rfl
  exact this

/-- C8: for every translation table, calling `sqlForPartialUpdate` with an
empty field mapping fails with `BadRequestError("No data")`: no clause or value
sequence is produced. -/
theorem sqlForPartialUpdate_empty_badRequest (jsToSql : List (String × String)) :
    sqlForPartialUpdate [] jsToSql = .error (.badRequest "No data") := rfl

/-! ## Shared JavaScript-object helpers -/

/-- JavaScript `Object.keys`: throws `TypeError` on `null` (the crash behind
`findAll`'s dead no-filter branch in the companies model), else the keys in
insertion order. -/
def objectKeys (query : Option (List (String × JSVal))) : Except JsError (List String) :=
  match query with
  | none => .error (.typeError "Cannot convert undefined or null to object")
  | some q => .ok (q.map Prod.fst)

/-- Assignment `obj[k] = v` for a key already present: replaces the value at
`k`, preserving key order (JavaScript objects keep the original insertion
position on re-assignment). -/
def setKey (q : List (String × JSVal)) (k : String) (v : JSVal) : List (String × JSVal) :=
  q.map fun p => if p.1 = k then (p.1, v) else p

/-- Truthiness of a property access that may be `undefined` (absent key). -/
def jsTruthyOpt : Option JSVal → Bool
  | none => false
  | some v => jsTruthy v

/-- Is `v` one of `[true, false, 'true', 'false']`? (The array the jobs model
filters out of its value list, compared with `indexOf`, i.e. `===`.) -/
def boolLike (v : JSVal) : Bool :=
  decide (v = .bool true ∨ v = .bool false ∨ v = .str "true" ∨ v = .str "false")

/-- The `BadRequestError` message both models build for unrecognized filter
keys: a template literal interpolating the offending-key array, which
JavaScript renders as the keys joined by commas. -/
def invalidParamsMsg (invalidKeys : List String) : String :=
  "These parameters in your query \n string are invalid: ["
    ++ String.intercalate "," invalidKeys ++ "]"

/-! ## The jobs model (`src/unnamed/part_004`)

This is the authoritative `Job` class: it is the complete one (with `get`,
`update`, `remove`) and the one whose `findAll` behavior the model tests in
`src/unnamed/part_002` exercise. `src/models/job.js` is an earlier draft of
the same class (its `hasEquity` clause always compares with `=` and binds the
raw query value). SQL template literals are embedded with their text intact
and inner whitespace flattened to single spaces/newlines. -/

/-- Row shape the jobs queries return (`RETURNING`/`SELECT title, salary,
equity, company_handle AS companyHandle`). -/
structure JobRow : Type where
  title : String
  salary : JSVal
  equity : JSVal
  companyHandle : JSVal
deriving DecidableEq

/-- Embedding of `Job.makeKeyStatementsForWhereClauses(query, key, idx)`
(part_004 lines 27–33). An unrecognized key falls through to `undefined`,
which `Array.prototype.join` renders as the empty string. -/
def Job.makeKeyStatementsForWhereClauses (query : List (String × JSVal))
    (key : String) (idx : Nat) : String :=
  let equityAmt :=
    if query.lookup "hasEquity" = some (.str "false")
        ∨ jsTruthyOpt (query.lookup "hasEquity") = false
    then "=" else ">"
  if key = "title" then " " ++ key ++ " ILIKE " ++ "$" ++ decimalRepr (idx + 1)
  else if key = "minSalary" then "salary >= " ++ "$" ++ decimalRepr (idx + 1)
  else if key = "hasEquity" then "equity " ++ equityAmt ++ " " ++ "$" ++ decimalRepr (idx + 1)
  else ""

/-- Embedding of `Job.checkForBadQueries(keys)` (part_004 lines 46–51). -/
def Job.checkForBadQueries (keys : List String) : Except JsError Unit :=
  let validParams := ["title", "minSalary", "hasEquity"]
  let invalidKeys := keys.filter fun k => !validParams.contains k
  if invalidKeys ≠ [] then .error (.badRequest (invalidParamsMsg invalidKeys))
  else .ok ()

/-- The fragment list `keys.map((key, idx) =>
this.makeKeyStatementsForWhereClauses(query, key, idx))` of `Job.findAll`. -/
def Job.queryFragments (query : List (String × JSVal)) : List String :=
  (query.map Prod.fst).enum.map fun p =>
    Job.makeKeyStatementsForWhereClauses query p.2 p.1

/-- The mutation `if (query.title) query.title = `%${query.title}%`` of
`Job.findAll`. -/
def Job.wrapTitleStep (query : List (String × JSVal)) : List (String × JSVal) :=
  match query.lookup "title" with
  | some v =>
    if jsTruthy v then setKey query "title" (.str ("%" ++ jsToString v ++ "%")) else query
  | none => query

/-- The bound-value list of `Job.findAll`: the (title-wrapped) query's values
with every boolean-like value filtered out, then a literal `'0'` pushed when
the `hasEquity` key is present. -/
def Job.queryValues (query : List (String × JSVal)) : List JSVal :=
  let values := ((Job.wrapTitleStep query).map Prod.snd).filter fun v => !boolLike v
  if query.lookup "hasEquity" ≠ none then values ++ [.str "0"] else values

/-- The jobs `SELECT` template with the computed `whereClause` spliced in. -/
def Job.selectSql (whereClause : String) : String :=
  "SELECT title, salary, equity, company_handle AS companyHandle\n FROM jobs\n "
    ++ whereClause ++ "\n ORDER BY title"

/-- Query construction of `Job.findAll(query)` (part_004 lines 93–114): the
SQL text and ordered parameter list handed to `db.query`, or the thrown
error. -/
def Job.findAllQuery (query : List (String × JSVal)) : Except JsError (String × List JSVal) := do
  let keys := query.map Prod.fst
  let _ ← Job.checkForBadQueries keys
  let queryKeys := String.intercalate " AND " (Job.queryFragments query)
  let whereClause := if queryKeys.length ≠ 0 then "WHERE " ++ queryKeys else ""
  .ok (Job.selectSql whereClause, Job.queryValues query)

/-- `Job.findAll(query)` run against a parameterized-query executor (the
external `db.query` collaborator). -/
def Job.findAll (exec : String → List JSVal → List JobRow)
    (query : List (String × JSVal)) : Except JsError (List JobRow) := do
  let sv ← Job.findAllQuery query
  .ok (exec sv.1 sv.2)

/-- Name-translation table `Job.update` passes to `sqlForPartialUpdate`. -/
def jobJsToSql : List (String × String) := [("companyHandle", "company_handle")]

/-- The jobs `UPDATE` template: `SET` clause spliced in, row identifier bound
at placeholder `$n`. -/
def Job.updateSql (setCols : String) (n : Nat) : String :=
  "UPDATE jobs\n SET " ++ setCols ++ "\n WHERE title = " ++ "$" ++ decimalRepr n
    ++ "\n RETURNING title, salary, equity, company_handle AS companyHandle"

/-- Embedding of `Job.update(title, data)` (part_004 lines 154–175). The
`NotFoundError` message says `No company:` in the source (a copy-paste kept
verbatim). -/
def Job.update (exec : String → List JSVal → List JobRow)
    (title : String) (data : List (String × JSVal)) : Except JsError JobRow := do
  let r ← sqlForPartialUpdate data jobJsToSql
  let querySql := Job.updateSql r.setCols (r.values.length + 1)
  match exec querySql (r.values ++ [.str title]) with
  | [] => .error (.notFound ("No company: " ++ title))
  | row :: _ => .ok row

/-- Embedding of `Job.create` (part_004 lines 69–81) over an in-memory jobs
table, the fixed `INSERT ... RETURNING` statement interpreted by its SQL
meaning (append a row; return it shaped). The source performs no duplicate
check before inserting. -/
def Job.create (jobs : List JobRow) (title : String)
    (salary equity companyHandle : JSVal) : Except JsError (JobRow × List JobRow) :=
  let newJob : JobRow := ⟨title, salary, equity, companyHandle⟩
  .ok (newJob, jobs ++ [newJob])

/-! ## The companies model (`src/unnamed/part_003`) -/

/-- Row shape of the companies queries (`RETURNING`/`SELECT handle, name,
description, num_employees AS "numEmployees", logo_url AS "logoUrl"`). -/
structure CompanyRow : Type where
  handle : String
  name : String
  description : JSVal
  numEmployees : JSVal
  logoUrl : JSVal
deriving DecidableEq

/-- Embedding of `Company.makeKeyStatementsForWhereClauses(key, idx)`
(part_003 lines 20–25); unrecognized keys fall through to `undefined`, which
`join` renders as the empty string. -/
def Company.makeKeyStatementsForWhereClauses (key : String) (idx : Nat) : String :=
  if key = "name" then " " ++ key ++ " ILIKE " ++ "$" ++ decimalRepr (idx + 1)
  else if key = "minEmployees" then "num_employees >= " ++ "$" ++ decimalRepr (idx + 1)
  else if key = "maxEmployees" then "num_employees <= " ++ "$" ++ decimalRepr (idx + 1)
  else ""

/-- The fragment list of `Company.findAll`. -/
def Company.queryFragments (q : List (String × JSVal)) : List String :=
  (q.map Prod.fst).enum.map fun p =>
    Company.makeKeyStatementsForWhereClauses p.2 p.1

/-- The mutation `if (query.name) query.name = `%${query.name}%`` of
`Company.findAll`. -/
def Company.wrapNameStep (q : List (String × JSVal)) : List (String × JSVal) :=
  match q.lookup "name" with
  | some v =>
    if jsTruthy v then setKey q "name" (.str ("%" ++ jsToString v ++ "%")) else q
  | none => q

/-- The companies `SELECT` of the `!query` branch: no `WHERE` at all. -/
def Company.noFilterSql : String :=
  "SELECT handle,\n name,\n description,\n num_employees AS numEmployees,\n logo_url AS logoUrl\n FROM companies\n ORDER BY name"

/-- The companies `SELECT` of the filtering branch: the template splices
`queryKeys` right after the `WHERE` keyword. -/
def Company.filterSql (queryKeys : String) : String :=
  "SELECT handle,\n name,\n description,\n num_employees AS numEmployees,\n logo_url AS logoUrl\n FROM companies\n WHERE "
    ++ queryKeys ++ "\n ORDER BY name"

/-- Query construction of `Company.findAll(query = null)` (part_003 lines
82–117): `Object.keys(query)` runs first, so the `null` default crashes with
a `TypeError` and the `if (!query)` no-filter branch is unreachable; an empty
`{}` object is truthy and takes the filtering branch. -/
def Company.findAllQuery (query : Option (List (String × JSVal))) :
    Except JsError (String × List JSVal) := do
  let validParams := ["name", "minEmployees", "maxEmployees"]
  let keys ← objectKeys query
  let invalidKeys := keys.filter fun k => !validParams.contains k
  if invalidKeys ≠ [] then .error (.badRequest (invalidParamsMsg invalidKeys))
  else
    match query with
    | none => .ok (Company.noFilterSql, [])
    | some q =>
      let queryKeys := String.intercalate " AND " (Company.queryFragments q)
      let values := (Company.wrapNameStep q).map Prod.snd
      .ok (Company.filterSql queryKeys, values)

/-- The source's default argument: `Company.findAll(query = null)`. -/
def Company.findAllDefaultQuery : Option (List (String × JSVal)) := none

/-- `Company.findAll(query)` run against a parameterized-query executor. -/
def Company.findAll (exec : String → List JSVal → List CompanyRow)
    (query : Option (List (String × JSVal))) : Except JsError (List CompanyRow) := do
  let sv ← Company.findAllQuery query
  .ok (exec sv.1 sv.2)

/-- Name-translation table `Company.update` passes to `sqlForPartialUpdate`. -/
def companyJsToSql : List (String × String) :=
  [("numEmployees", "num_employees"), ("logoUrl", "logo_url")]

/-- The companies `UPDATE` template. -/
def Company.updateSql (setCols : String) (n : Nat) : String :=
  "UPDATE companies\n SET " ++ setCols ++ "\n WHERE handle = " ++ "$" ++ decimalRepr n
    ++ "\n RETURNING handle, name, description, num_employees AS numEmployees, logo_url AS logoUrl"

/-- Embedding of `Company.update(handle, data)` (part_003 lines 157–180). -/
def Company.update (exec : String → List JSVal → List CompanyRow)
    (handle : String) (data : List (String × JSVal)) : Except JsError CompanyRow := do
  let r ← sqlForPartialUpdate data companyJsToSql
  let querySql := Company.updateSql r.setCols (r.values.length + 1)
  match exec querySql (r.values ++ [.str handle]) with
  | [] => .error (.notFound ("No company: " ++ handle))
  | row :: _ => .ok row

/-- Embedding of `Company.create` (part_003 lines 36–62) over an in-memory
companies table: the fixed duplicate-check `SELECT handle FROM companies WHERE
handle = $1` is interpreted as filtering the table by handle, and the fixed
`INSERT ... RETURNING` as appending a row and returning it shaped to the
public field set. -/
def Company.create (companies : List CompanyRow) (handle name : String)
    (description numEmployees logoUrl : JSVal) :
    Except JsError (CompanyRow × List CompanyRow) :=
  let duplicateRows := companies.filter fun c => c.handle == handle
  match duplicateRows with
  | _ :: _ => .error (.badRequest ("Duplicate company: " ++ handle))
  | [] =>
    let company : CompanyRow := ⟨handle, name, description, numEmployees, logoUrl⟩
    .ok (company, companies ++ [company])

/-! ## Association-list lemmas for the JavaScript-object embedding -/

theorem lookup_mem {l : List (String × JSVal)} {k : String} {v : JSVal}
    (h : l.lookup k = some v) : (k, v) ∈ l := by
  induction l with
  | nil => simp [List.lookup] at h
  | cons p l ih =>
    obtain ⟨k', v'⟩ := p
    rw [List.lookup_cons] at h
    by_cases hk : k = k'
    · subst hk
      simp at h
      simp [h]
    · have : (k == k') = false := beq_eq_false_iff_ne.mpr hk
      rw [this] at h
      exact List.mem_cons_of_mem _ (ih h)

theorem lookup_eq_none_of_keys {l : List (String × JSVal)} {k : String}
    (h : ∀ p ∈ l, p.1 ≠ k) : l.lookup k = none := by
  induction l with
  | nil => simp [List.lookup]
  | cons p l ih =>
    obtain ⟨k', v'⟩ := p
    rw [List.lookup_cons]
    have hk : (k == k') = false :=
      beq_eq_false_iff_ne.mpr (fun he => h (k', v') (by simp) (by simp [he]))
    rw [hk]
    exact ih fun p hp => h p (List.mem_cons_of_mem _ hp)

theorem keys_lookup_none {l : List (String × JSVal)} {k : String}
    (h : l.lookup k = none) : ∀ p ∈ l, p.1 ≠ k := by
  induction l with
  | nil => simp
  | cons q l ih =>
    obtain ⟨k', v'⟩ := q
    rw [List.lookup_cons] at h
    intro p hp
    by_cases hk : k = k'
    · subst hk; simp at h
    · have : (k == k') = false := beq_eq_false_iff_ne.mpr hk
      rw [this] at h
      rcases List.mem_cons.mp hp with h1 | h2
      · subst h1; simpa using fun he => hk he.symm
      · exact ih h p h2

theorem nodup_lookup {l : List (String × JSVal)} {k : String} {v : JSVal}
    (hnd : (l.map Prod.fst).Nodup) (hmem : (k, v) ∈ l) : l.lookup k = some v := by
  induction l with
  | nil => simp at hmem
  | cons p l ih =>
    obtain ⟨k', v'⟩ := p
    simp only [List.map_cons, List.nodup_cons] at hnd
    rw [List.lookup_cons]
    rcases List.mem_cons.mp hmem with h1 | h2
    · obtain ⟨hk, hv⟩ := Prod.mk.injEq .. ▸ h1
      injection h1 with h1a h1b
      subst h1a; subst h1b
      simp
    · by_cases hk : k = k'
      · subst hk
        exact absurd (List.mem_map.mpr ⟨(k, v), h2, rfl⟩) hnd.1
      · have : (k == k') = false := beq_eq_false_iff_ne.mpr hk
        rw [this]
        exact ih hnd.2 h2

theorem lookup_append_last {l : List (String × JSVal)} {k : String} {v : JSVal}
    (h : ∀ p ∈ l, p.1 ≠ k) : (l ++ [(k, v)]).lookup k = some v := by
  induction l with
  | nil => simp [List.lookup]
  | cons p l ih =>
    obtain ⟨k', v'⟩ := p
    have hk : (k == k') = false :=
      beq_eq_false_iff_ne.mpr (fun he => h (k', v') (by simp) (by simp [he]))
    rw [List.cons_append, List.lookup_cons, hk]
    exact ih fun p hp => h p (List.mem_cons_of_mem _ hp)

theorem setKey_map_fst (l : List (String × JSVal)) (k : String) (v : JSVal) :
    (setKey l k v).map Prod.fst = l.map Prod.fst := by
  simp only [setKey, List.map_map]
  exact List.map_congr_left fun p _ => by by_cases h : p.1 = k <;> simp [h]

theorem lookup_setKey_ne (l : List (String × JSVal)) (k k' : String) (v : JSVal)
    (h : k' ≠ k) : (setKey l k v).lookup k' = l.lookup k' := by
  induction l with
  | nil => simp [setKey]
  | cons p l ih =>
    obtain ⟨k0, v0⟩ := p
    simp only [setKey, List.map_cons] at ih ⊢
    by_cases hk : k0 = k
    · have hbe : (k' == k0) = false :=
        beq_eq_false_iff_ne.mpr (fun he => h (he.trans hk))
      simp only [if_pos hk, List.lookup_cons, hbe]
      exact ih
    · simp only [if_neg hk, List.lookup_cons]
      cases hbe : (k' == k0) with
      | true => rfl
      | false => exact ih

theorem mem_setKey_of_mem {l : List (String × JSVal)} {k : String} {v0 : JSVal}
    (hmem : (k, v0) ∈ l) (v : JSVal) : (k, v) ∈ setKey l k v := by
  induction l with
  | nil => simp at hmem
  | cons p l ih =>
    rcases List.mem_cons.mp hmem with h1 | h2
    · simp [setKey, ← h1]
    · simp only [setKey, List.map_cons]
      exact List.mem_cons_of_mem _ (by simpa [setKey] using ih h2)

set_option maxRecDepth 10000 in
/-- C2 (code bug witness): the claim says an empty filter mapping always makes
`whereClause` empty and omits `WHERE` entirely. `Job.findAll {}` conforms: the
clause is empty and its query text has no `WHERE`. But `Company.findAll {}`
takes the filtering branch (an empty object is truthy, so `if (!query)` is
false), joins zero fragments into an empty `queryKeys`, and executes a query
whose text contains `WHERE` followed by an empty clause — contradicting both
the claim and the model's own no-filter documentation. -/
theorem company_findAll_emptyFilter_dangling_where :
    Company.findAllQuery (some []) = .ok (Company.filterSql "", []) ∧
    ("WHERE \n ORDER BY name").data <:+: (Company.filterSql "").data ∧
    Job.findAllQuery [] = .ok (Job.selectSql "", []) ∧
    ¬ ("WHERE".data <:+: (Job.selectSql "").data) :=
  ⟨rfl, by decide, rfl, by decide⟩

/-- C10 (code bug witness): calling the companies `findAll` with no argument
uses the source's default `query = null`; `Object.keys(null)` throws
`TypeError` before the `if (!query)` no-filter branch can run, so the call
never returns the full listing. -/
theorem company_findAll_default_throws_typeError
    (exec : String → List JSVal → List CompanyRow) :
    Company.findAll exec Company.findAllDefaultQuery
      = .error (.typeError "Cannot convert undefined or null to object") := rfl

/-- C4: for every filter mapping with at least one key outside the recognized
set, both models' `findAll` fails with `BadRequestError` before any query is
executed (the executor is universally quantified and never consulted), and
the message's interpolated key list contains every offending key, not just
the first. -/
theorem findAll_unrecognized_keys_badRequest
    (jq cq : List (String × JSVal))
    (execJ : String → List JSVal → List JobRow)
    (execC : String → List JSVal → List CompanyRow)
    (hj : ∃ k ∈ jq.map Prod.fst, (!(["title", "minSalary", "hasEquity"] : List String).contains k) = true)
    (hc : ∃ k ∈ cq.map Prod.fst, (!(["name", "minEmployees", "maxEmployees"] : List String).contains k) = true) :
    (Job.findAll execJ jq = .error (.badRequest (invalidParamsMsg
        ((jq.map Prod.fst).filter fun k => !(["title", "minSalary", "hasEquity"] : List String).contains k))) ∧
      ∀ k ∈ jq.map Prod.fst, (!(["title", "minSalary", "hasEquity"] : List String).contains k) = true →
        k ∈ (jq.map Prod.fst).filter fun k => !(["title", "minSalary", "hasEquity"] : List String).contains k) ∧
    (Company.findAll execC (some cq) = .error (.badRequest (invalidParamsMsg
        ((cq.map Prod.fst).filter fun k => !(["name", "minEmployees", "maxEmployees"] : List String).contains k))) ∧
      ∀ k ∈ cq.map Prod.fst, (!(["name", "minEmployees", "maxEmployees"] : List String).contains k) = true →
        k ∈ (cq.map Prod.fst).filter fun k => !(["name", "minEmployees", "maxEmployees"] : List String).contains k) := by
  obtain ⟨kj, hkj, hnkj⟩ := hj
  obtain ⟨kc, hkc, hnkc⟩ := hc
  have hjne : (jq.map Prod.fst).filter
      (fun k => !(["title", "minSalary", "hasEquity"] : List String).contains k) ≠ [] :=
    List.ne_nil_of_mem (List.mem_filter.mpr ⟨hkj, hnkj⟩)
  have hcne : (cq.map Prod.fst).filter
      (fun k => !(["name", "minEmployees", "maxEmployees"] : List String).contains k) ≠ [] :=
    List.ne_nil_of_mem (List.mem_filter.mpr ⟨hkc, hnkc⟩)
  refine ⟨⟨?_, ?_⟩, ⟨?_, ?_⟩⟩
  · have hchk : Job.checkForBadQueries (jq.map Prod.fst) = .error (.badRequest (invalidParamsMsg
        ((jq.map Prod.fst).filter fun k => !(["title", "minSalary", "hasEquity"] : List String).contains k))) := by
      simp only [Job.checkForBadQueries]
      rw [if_pos hjne]
    simp [Job.findAll, Job.findAllQuery, hchk, Bind.bind, Except.bind]
  · intro k hk hnk
    exact List.mem_filter.mpr ⟨hk, hnk⟩
  · simp only [Company.findAll, Company.findAllQuery, objectKeys, Bind.bind, Except.bind]
    rw [if_pos hcne]
  · intro k hk hnk
    exact List.mem_filter.mpr ⟨hk, hnk⟩

/-- Witness for the unrecognized-filter-key claim at a concrete input: the
query `{title:"c", potato:"soup"}` fails naming `potato`, for the jobs model,
and `{bogus:"x"}` fails naming `bogus` for the companies model. -/
theorem findAll_unrecognized_keys_badRequest_witness :
    Job.findAll (fun _ _ => []) [("title", JSVal.str "c"), ("potato", JSVal.str "soup")]
      = .error (.badRequest (invalidParamsMsg ["potato"])) ∧
    Company.findAll (fun _ _ => []) (some [("bogus", JSVal.str "x")])
      = .error (.badRequest (invalidParamsMsg ["bogus"])) := by
  have h := findAll_unrecognized_keys_badRequest
    [("title", JSVal.str "c"), ("potato", JSVal.str "soup")]
    [("bogus", JSVal.str "x")]
    (fun _ _ => []) (fun _ _ => []) (by decide) (by decide)
  exact ⟨h.1.1, h.2.1⟩

/-- C6: for every identifier and non-empty field mapping, both repository
`update` operations bind the identifier as the final parameter — the bound
list is the partial-update values followed by the identifier, so it sits at
1-based position `values.length + 1`, which is precisely the ordinal the
`WHERE` clause references — and the call fails `NotFoundError` when the
executor reports zero rows, else returns the first (updated) row. -/
theorem update_appends_identifier_last
    (handle title : String) (dataC dataJ : List (String × JSVal))
    (rC rJ : SetClauseResult)
    (hC : sqlForPartialUpdate dataC companyJsToSql = .ok rC)
    (hJ : sqlForPartialUpdate dataJ jobJsToSql = .ok rJ)
    (execC : String → List JSVal → List CompanyRow)
    (execJ : String → List JSVal → List JobRow) :
    ((rC.values ++ [JSVal.str handle]).length = rC.values.length + 1 ∧
     (rC.values ++ [JSVal.str handle]).getLast? = some (.str handle) ∧
     (execC (Company.updateSql rC.setCols (rC.values.length + 1)) (rC.values ++ [.str handle]) = [] →
       Company.update execC handle dataC = .error (.notFound ("No company: " ++ handle))) ∧
     (∀ row rest, execC (Company.updateSql rC.setCols (rC.values.length + 1)) (rC.values ++ [.str handle]) = row :: rest →
       Company.update execC handle dataC = .ok row)) ∧
    ((rJ.values ++ [JSVal.str title]).length = rJ.values.length + 1 ∧
     (rJ.values ++ [JSVal.str title]).getLast? = some (.str title) ∧
     (execJ (Job.updateSql rJ.setCols (rJ.values.length + 1)) (rJ.values ++ [.str title]) = [] →
       Job.update execJ title dataJ = .error (.notFound ("No company: " ++ title))) ∧
     (∀ row rest, execJ (Job.updateSql rJ.setCols (rJ.values.length + 1)) (rJ.values ++ [.str title]) = row :: rest →
       Job.update execJ title dataJ = .ok row)) := by
  refine ⟨⟨by simp, List.getLast?_concat _, ?_, ?_⟩,
          ⟨by simp, List.getLast?_concat _, ?_, ?_⟩⟩
  · intro hexec
    simp [Company.update, hC, Bind.bind, Except.bind, hexec]
  · intro row rest hexec
    simp [Company.update, hC, Bind.bind, Except.bind, hexec]
  · intro hexec
    simp [Job.update, hJ, Bind.bind, Except.bind, hexec]
  · intro row rest hexec
    simp [Job.update, hJ, Bind.bind, Except.bind, hexec]

/-- Witness for the update-identifier claim at concrete inputs: with an
executor reporting zero matched rows, both updates fail `NotFoundError`. -/
theorem update_appends_identifier_last_witness :
    Company.update (fun _ _ => []) "c1" [("numEmployees", JSVal.num 12)]
      = .error (.notFound ("No company: " ++ "c1")) ∧
    Job.update (fun _ _ => []) "cook" [("salary", JSVal.num 90000)]
      = .error (.notFound ("No company: " ++ "cook")) := by
  have h := update_appends_identifier_last "c1" "cook"
    [("numEmployees", JSVal.num 12)] [("salary", JSVal.num 90000)]
    { setCols := "\"num_employees\"=$1", values := [JSVal.num 12] }
    { setCols := "\"salary\"=$1", values := [JSVal.num 90000] }
    rfl rfl (fun _ _ => []) (fun _ _ => [])
  exact ⟨h.1.2.2.1 rfl, h.2.2.2.1 rfl⟩

/-- C7 (counterexample): the claim quantifies over every entity whose unique
identifier is caller-supplied. The jobs entity's identifier (its title, used
by `get`/`update`/`remove`) is caller-supplied, yet `Job.create` performs no
duplicate check: creating a job titled `cook` over a table that already holds
a job titled `cook` succeeds and inserts, instead of failing `BadRequest`. -/
theorem job_create_inserts_duplicate_identifier :
    Job.create [⟨"cook", .num 90000, .str "0.0", .str "c2"⟩]
        "cook" (.num 80000) (.str "0.1") (.str "c1")
      = .ok (⟨"cook", .num 80000, .str "0.1", .str "c1"⟩,
             [⟨"cook", .num 90000, .str "0.0", .str "c2"⟩,
              ⟨"cook", .num 80000, .str "0.1", .str "c1"⟩]) ∧
    (⟨"cook", JSVal.num 90000, JSVal.str "0.0", JSVal.str "c2"⟩ : JobRow).title = "cook" :=
  ⟨rfl, rfl⟩

/-- C7 (amended): the companies `create` checks that no existing row shares
the caller-supplied handle, fails `BadRequestError` on collision (leaving the
table unchanged), and otherwise inserts and returns the row shaped to the
public field set; the jobs `create` performs no duplicate-identifier check
and unconditionally inserts and returns the shaped row. -/
theorem create_duplicate_check_by_entity
    (companies : List CompanyRow) (handle name : String)
    (description numEmployees logoUrl : JSVal)
    (jobs : List JobRow) (title : String) (salary equity companyHandle : JSVal) :
    ((∃ c ∈ companies, c.handle = handle) →
      Company.create companies handle name description numEmployees logoUrl
        = .error (.badRequest ("Duplicate company: " ++ handle))) ∧
    ((∀ c ∈ companies, c.handle ≠ handle) →
      Company.create companies handle name description numEmployees logoUrl
        = .ok (⟨handle, name, description, numEmployees, logoUrl⟩,
               companies ++ [⟨handle, name, description, numEmployees, logoUrl⟩])) ∧
    Job.create jobs title salary equity companyHandle
      = .ok (⟨title, salary, equity, companyHandle⟩,
             jobs ++ [⟨title, salary, equity, companyHandle⟩]) := by
  refine ⟨?_, ?_, rfl⟩
  · rintro ⟨c, hc, hh⟩
    have hne : companies.filter (fun c => c.handle == handle) ≠ [] :=
      List.ne_nil_of_mem (List.mem_filter.mpr ⟨hc, by simp [hh]⟩)
    rcases hfe : companies.filter (fun c => c.handle == handle) with _ | ⟨d, ds⟩
    · exact absurd hfe hne
    · simp [Company.create, hfe]
  · intro hall
    have hf : companies.filter (fun c => c.handle == handle) = [] :=
      List.filter_eq_nil_iff.mpr fun c hc => by simpa using hall c hc
    simp [Company.create, hf]

/-- Witness for the per-entity duplicate-check claim at concrete inputs: a
colliding handle is rejected, a fresh one is inserted and returned shaped. -/
theorem create_duplicate_check_by_entity_witness :
    Company.create [⟨"c1", "C1", .null, .num 1, .null⟩] "c1" "C1again" .null (.num 2) .null
      = .error (.badRequest ("Duplicate company: " ++ "c1")) ∧
    Company.create [] "c9" "C9" .null (.num 3) .null
      = .ok (⟨"c9", "C9", .null, .num 3, .null⟩, [] ++ [⟨"c9", "C9", .null, .num 3, .null⟩]) := by
  refine ⟨(create_duplicate_check_by_entity
      [⟨"c1", "C1", .null, .num 1, .null⟩] "c1" "C1again" .null (.num 2) .null
      [] "t" .null .null .null).1 (by decide), ?_⟩
  exact (create_duplicate_check_by_entity
      [] "c9" "C9" .null (.num 3) .null [] "t" .null .null .null).2.1 (by decide)

/-! ## Ordering of listing results -/

/-- Rows ascending by the jobs display key (`ORDER BY title`). -/
def sortedByTitle (rows : List JobRow) : Prop :=
  List.Sorted (fun a b => a.title ≤ b.title) rows

/-- Rows ascending by the companies display key (`ORDER BY name`). -/
def sortedByName (rows : List CompanyRow) : Prop :=
  List.Sorted (fun a b => a.name ≤ b.name) rows

/-- The executor contract for `ORDER BY title` (spec §6: the external
parameterized-query executor returns rows as the SQL text orders them). -/
def execOrdersByTitle (exec : String → List JSVal → List JobRow) : Prop :=
  ∀ sql params, ("ORDER BY title").data <:+ sql.data → sortedByTitle (exec sql params)

/-- The executor contract for `ORDER BY name`. -/
def execOrdersByName (exec : String → List JSVal → List CompanyRow) : Prop :=
  ∀ sql params, ("ORDER BY name").data <:+ sql.data → sortedByName (exec sql params)

theorem orderByTitle_suffix (w : String) :
    ("ORDER BY title").data <:+ (Job.selectSql w).data := by
  have he : ("\n ORDER BY title" : String) = "\n " ++ "ORDER BY title" := rfl
  have hshape : (Job.selectSql w).data
      = (("SELECT title, salary, equity, company_handle AS companyHandle\n FROM jobs\n "
          ++ w) ++ "\n ").data ++ ("ORDER BY title").data := by
    simp [Job.selectSql, he, String.data_append, List.append_assoc]
  rw [hshape]
  exact List.suffix_append _ _

theorem orderByName_suffix_filter (qk : String) :
    ("ORDER BY name").data <:+ (Company.filterSql qk).data := by
  have he : ("\n ORDER BY name" : String) = "\n " ++ "ORDER BY name" := rfl
  have hshape : (Company.filterSql qk).data
      = (("SELECT handle,\n name,\n description,\n num_employees AS numEmployees,\n logo_url AS logoUrl\n FROM companies\n WHERE "
          ++ qk) ++ "\n ").data ++ ("ORDER BY name").data := by
    simp [Company.filterSql, he, String.data_append, List.append_assoc]
  rw [hshape]
  exact List.suffix_append _ _

theorem job_findAllQuery_selectSql (q : List (String × JSVal)) (sql : String)
    (vals : List JSVal) (h : Job.findAllQuery q = .ok (sql, vals)) :
    ∃ w, sql = Job.selectSql w := by
  cases hc : Job.checkForBadQueries (q.map Prod.fst) with
  | error e => simp [Job.findAllQuery, hc, Bind.bind, Except.bind] at h
  | ok u =>
    simp only [Job.findAllQuery, hc, Bind.bind, Except.bind] at h
    exact ⟨_, ((Prod.ext_iff.mp (Except.ok.inj h)).1).symm⟩

theorem company_findAllQuery_filterSql (q : List (String × JSVal)) (sql : String)
    (vals : List JSVal) (h : Company.findAllQuery (some q) = .ok (sql, vals)) :
    ∃ qk, sql = Company.filterSql qk := by
  by_cases hinv : ((q.map Prod.fst).filter fun k =>
      !(["name", "minEmployees", "maxEmployees"] : List String).contains k) ≠ []
  · simp [Company.findAllQuery, objectKeys, Bind.bind, Except.bind, if_pos hinv] at h
  · simp only [Company.findAllQuery, objectKeys, Bind.bind, Except.bind, if_neg hinv] at h
    exact ⟨_, ((Prod.ext_iff.mp (Except.ok.inj h)).1).symm⟩

/-- C9: for every filter mapping (the empty one included) and any executor
honoring the SQL `ORDER BY` it is handed, every successful listing returns
rows ascending by the entity's display key — title for jobs, name for
companies — independent of which filters were applied, because every query
text either model can construct ends with the fixed `ORDER BY` clause. -/
theorem findAll_rows_sorted_by_display_key
    (execJ : String → List JSVal → List JobRow)
    (execC : String → List JSVal → List CompanyRow)
    (hJ : execOrdersByTitle execJ) (hC : execOrdersByName execC)
    (jq : List (String × JSVal)) (cq : Option (List (String × JSVal)))
    (rowsJ : List JobRow) (rowsC : List CompanyRow)
    (hjok : Job.findAll execJ jq = .ok rowsJ)
    (hcok : Company.findAll execC cq = .ok rowsC) :
    sortedByTitle rowsJ ∧ sortedByName rowsC := by
  constructor
  · cases hq : Job.findAllQuery jq with
    | error e => simp [Job.findAll, hq, Bind.bind, Except.bind] at hjok
    | ok sv =>
      obtain ⟨sql, vals⟩ := sv
      simp only [Job.findAll, hq, Bind.bind, Except.bind] at hjok
      have hrows : rowsJ = execJ sql vals := (Except.ok.inj hjok).symm
      obtain ⟨w, hw⟩ := job_findAllQuery_selectSql jq sql vals hq
      subst hrows
      exact hJ sql vals (hw ▸ orderByTitle_suffix w)
  · cases cq with
    | none =>
      simp [Company.findAll, Company.findAllQuery, objectKeys, Bind.bind, Except.bind] at hcok
    | some q =>
      cases hq : Company.findAllQuery (some q) with
      | error e => simp [Company.findAll, hq, Bind.bind, Except.bind] at hcok
      | ok sv =>
        obtain ⟨sql, vals⟩ := sv
        simp only [Company.findAll, hq, Bind.bind, Except.bind] at hcok
        have hrows : rowsC = execC sql vals := (Except.ok.inj hcok).symm
        obtain ⟨qk, hqk⟩ := company_findAllQuery_filterSql q sql vals hq
        subst hrows
        exact hC sql vals (hqk ▸ orderByName_suffix_filter qk)

/-- Witness for the ordering claim at a concrete input: an executor that
honors `ORDER BY` vacuously (it returns no rows) yields sorted listings for
the empty filter mapping of each model. -/
theorem findAll_rows_sorted_by_display_key_witness :
    sortedByTitle ([] : List JobRow) ∧ sortedByName ([] : List CompanyRow) :=
  findAll_rows_sorted_by_display_key (fun _ _ => []) (fun _ _ => [])
    (fun _ _ _ => List.sorted_nil) (fun _ _ _ => List.sorted_nil)
    [] (some []) [] [] rfl rfl

/-! ## Wildcard wrapping of substring filters -/

theorem percent_not_mem_decimalRepr (n : Nat) : ¬ '%' ∈ (decimalRepr n).data := fun h =>
  absurd (decimalRepr_digits n '%' h) (by decide)

theorem percent_not_mem_lit_repr (pre : String) (n : Nat)
    (hpre : ¬ '%' ∈ pre.data) : ¬ '%' ∈ (pre ++ decimalRepr n).data := by
  intro h
  rw [String.data_append] at h
  rcases List.mem_append.mp h with h | h
  · exact hpre h
  · exact percent_not_mem_decimalRepr n h

theorem company_fragment_no_percent (key : String) (idx : Nat) :
    ¬ '%' ∈ (Company.makeKeyStatementsForWhereClauses key idx).data := by
  unfold Company.makeKeyStatementsForWhereClauses
  by_cases h1 : key = "name"
  · subst h1
    rw [if_pos rfl]
    have he : (" " ++ "name" ++ " ILIKE " ++ "$" : String) = " name ILIKE $" := rfl
    rw [he]
    exact percent_not_mem_lit_repr " name ILIKE $" _ (by decide)
  · rw [if_neg h1]
    by_cases h2 : key = "minEmployees"
    · rw [if_pos h2]
      have he : ("num_employees >= " ++ "$" : String) = "num_employees >= $" := rfl
      rw [he]
      exact percent_not_mem_lit_repr "num_employees >= $" _ (by decide)
    · rw [if_neg h2]
      by_cases h3 : key = "maxEmployees"
      · rw [if_pos h3]
        have he : ("num_employees <= " ++ "$" : String) = "num_employees <= $" := rfl
        rw [he]
        exact percent_not_mem_lit_repr "num_employees <= $" _ (by decide)
      · rw [if_neg h3]
        decide

theorem job_fragment_no_percent (q : List (String × JSVal)) (key : String) (idx : Nat) :
    ¬ '%' ∈ (Job.makeKeyStatementsForWhereClauses q key idx).data := by
  unfold Job.makeKeyStatementsForWhereClauses
  by_cases h1 : key = "title"
  · subst h1
    rw [if_pos rfl]
    have he : (" " ++ "title" ++ " ILIKE " ++ "$" : String) = " title ILIKE $" := rfl
    rw [he]
    exact percent_not_mem_lit_repr " title ILIKE $" _ (by decide)
  · rw [if_neg h1]
    by_cases h2 : key = "minSalary"
    · rw [if_pos h2]
      have he : ("salary >= " ++ "$" : String) = "salary >= $" := rfl
      rw [he]
      exact percent_not_mem_lit_repr "salary >= $" _ (by decide)
    · rw [if_neg h2]
      by_cases h3 : key = "hasEquity"
      · rw [if_pos h3]
        by_cases hcond : q.lookup "hasEquity" = some (.str "false")
            ∨ jsTruthyOpt (q.lookup "hasEquity") = false
        · rw [if_pos hcond]
          have he : ("equity " ++ "=" ++ " " ++ "$" : String) = "equity = $" := rfl
          rw [he]
          exact percent_not_mem_lit_repr "equity = $" _ (by decide)
        · rw [if_neg hcond]
          have he : ("equity " ++ ">" ++ " " ++ "$" : String) = "equity > $" := rfl
          rw [he]
          exact percent_not_mem_lit_repr "equity > $" _ (by decide)
      · rw [if_neg h3]
        decide

theorem company_fragments_no_percent (q : List (String × JSVal)) :
    ∀ frag ∈ Company.queryFragments q, ¬ '%' ∈ frag.data := by
  intro frag hf
  simp only [Company.queryFragments, List.mem_map] at hf
  obtain ⟨p, _, rfl⟩ := hf
  exact company_fragment_no_percent p.2 p.1

theorem job_fragments_no_percent (q : List (String × JSVal)) :
    ∀ frag ∈ Job.queryFragments q, ¬ '%' ∈ frag.data := by
  intro frag hf
  simp only [Job.queryFragments, List.mem_map] at hf
  obtain ⟨p, _, rfl⟩ := hf
  exact job_fragment_no_percent q p.2 p.1

theorem company_fragments_setKey (q : List (String × JSVal)) (k : String) (v : JSVal) :
    Company.queryFragments (setKey q k v) = Company.queryFragments q := by
  simp [Company.queryFragments, setKey_map_fst]

theorem job_fragments_setKey_title (q : List (String × JSVal)) (v : JSVal) :
    Job.queryFragments (setKey q "title" v) = Job.queryFragments q := by
  simp only [Job.queryFragments, setKey_map_fst]
  refine List.map_congr_left fun p _ => ?_
  simp only [Job.makeKeyStatementsForWhereClauses,
    lookup_setKey_ne q "title" "hasEquity" v (by decide)]

theorem wrapped_not_boolLike (y : String) : boolLike (.str ("%" ++ y ++ "%")) = false := by
  have hhead : ∀ z : String, ("%" ++ y ++ "%") = z → ('%' :: (y.data ++ ['%'])).head? = z.data.head? := by
    intro z h
    have hd := congrArg String.data h
    rw [String.data_append, String.data_append] at hd
    simpa using congrArg List.head? hd
  have h1 : ("%" ++ y ++ "%") ≠ "true" := fun h => by
    have := hhead "true" h
    simp at this
  have h2 : ("%" ++ y ++ "%") ≠ "false" := fun h => by
    have := hhead "false" h
    simp at this
  simp [boolLike, h1, h2]

/-- C5 (counterexample): the claim quantifies over every call whose filter
mapping contains a substring-match key. A present-but-empty value refutes it:
`Company.findAll({name: ""})` builds the `name ILIKE $1` clause yet binds the
raw empty string — the supplied value is wrapped zero times, not once,
because the wrap is guarded by JavaScript truthiness (`if (query.name)`). -/
theorem substring_value_not_wrapped_when_falsy :
    Company.findAllQuery (some [("name", JSVal.str "")])
      = .ok (Company.filterSql " name ILIKE $1", [JSVal.str ""]) ∧
    JSVal.str "" ≠ JSVal.str ("%" ++ "" ++ "%") :=
  ⟨rfl, by decide⟩

/-- C5 (amended): for every `findAll` call whose filter mapping contains a
substring-match key with a truthy (non-empty) supplied value — and whose keys
are all recognized, so the call constructs a query — the bound value sequence
contains the supplied value wrapped exactly once with `%` delimiters, the
clause text is unchanged by any change to that key's value (the value never
reaches clause text), and no clause fragment contains a `%` wildcard (the
wrapping never reaches clause text). -/
theorem substring_match_wraps_truthy_value
    (cq jq : List (String × JSVal)) (nv tv : JSVal)
    (hcn : cq.lookup "name" = some nv) (hct : jsTruthy nv = true)
    (hcv : ∀ k ∈ cq.map Prod.fst,
      (["name", "minEmployees", "maxEmployees"] : List String).contains k = true)
    (hjn : jq.lookup "title" = some tv) (hjt : jsTruthy tv = true)
    (hjv : ∀ k ∈ jq.map Prod.fst,
      (["title", "minSalary", "hasEquity"] : List String).contains k = true) :
    (∃ sql values, Company.findAllQuery (some cq) = .ok (sql, values) ∧
       JSVal.str ("%" ++ jsToString nv ++ "%") ∈ values) ∧
    (∀ v', Company.queryFragments (setKey cq "name" v') = Company.queryFragments cq) ∧
    (∀ frag ∈ Company.queryFragments cq, ¬ '%' ∈ frag.data) ∧
    (∃ sql values, Job.findAllQuery jq = .ok (sql, values) ∧
       JSVal.str ("%" ++ jsToString tv ++ "%") ∈ values) ∧
    (∀ v', Job.queryFragments (setKey jq "title" v') = Job.queryFragments jq) ∧
    (∀ frag ∈ Job.queryFragments jq, ¬ '%' ∈ frag.data) := by
  have hcinv : ((cq.map Prod.fst).filter fun k =>
      !(["name", "minEmployees", "maxEmployees"] : List String).contains k) = [] :=
    List.filter_eq_nil_iff.mpr fun k hk hcontra => by
      rw [hcv k hk] at hcontra
      exact absurd hcontra (by decide)
  have hjinv : ((jq.map Prod.fst).filter fun k =>
      !(["title", "minSalary", "hasEquity"] : List String).contains k) = [] :=
    List.filter_eq_nil_iff.mpr fun k hk hcontra => by
      rw [hjv k hk] at hcontra
      exact absurd hcontra (by decide)
  refine ⟨?_, fun v' => company_fragments_setKey cq "name" v',
    company_fragments_no_percent cq, ?_, fun v' => job_fragments_setKey_title jq v',
    job_fragments_no_percent jq⟩
  · refine ⟨Company.filterSql (String.intercalate " AND " (Company.queryFragments cq)),
      (Company.wrapNameStep cq).map Prod.snd, ?_, ?_⟩
    · simp only [Company.findAllQuery, objectKeys, Bind.bind, Except.bind]
      rw [hcinv]
      simp
    · have hw : Company.wrapNameStep cq
          = setKey cq "name" (.str ("%" ++ jsToString nv ++ "%")) := by
        simp [Company.wrapNameStep, hcn, hct]
      rw [hw]
      exact List.mem_map.mpr
        ⟨("name", JSVal.str ("%" ++ jsToString nv ++ "%")),
         mem_setKey_of_mem (lookup_mem hcn) _, rfl⟩
  · have hchk : Job.checkForBadQueries (jq.map Prod.fst) = .ok () := by
      simp only [Job.checkForBadQueries]
      rw [hjinv]
      simp
    refine ⟨Job.selectSql (if (String.intercalate " AND " (Job.queryFragments jq)).length ≠ 0
        then "WHERE " ++ String.intercalate " AND " (Job.queryFragments jq) else ""),
      Job.queryValues jq, ?_, ?_⟩
    · simp only [Job.findAllQuery, hchk, Bind.bind, Except.bind]
    · have hw : Job.wrapTitleStep jq
          = setKey jq "title" (.str ("%" ++ jsToString tv ++ "%")) := by
        simp [Job.wrapTitleStep, hjn, hjt]
      have hmm : JSVal.str ("%" ++ jsToString tv ++ "%")
          ∈ (Job.wrapTitleStep jq).map Prod.snd := by
        rw [hw]
        exact List.mem_map.mpr
          ⟨("title", JSVal.str ("%" ++ jsToString tv ++ "%")),
           mem_setKey_of_mem (lookup_mem hjn) _, rfl⟩
      have hfil : JSVal.str ("%" ++ jsToString tv ++ "%")
          ∈ ((Job.wrapTitleStep jq).map Prod.snd).filter fun v => !boolLike v :=
        List.mem_filter.mpr ⟨hmm, by simp [wrapped_not_boolLike]⟩
      simp only [Job.queryValues]
      by_cases he : jq.lookup "hasEquity" = none
      · rw [if_neg (by simp [he])]
        exact hfil
      · rw [if_pos (by simpa using he)]
        exact List.mem_append_left _ hfil

/-- Witness for the substring-wrapping claim at a concrete input: searches
for `co` (companies) and `c` (jobs) bind `%co%` and `%c%`. -/
theorem substring_match_wraps_truthy_value_witness :
    (∃ sql values, Company.findAllQuery (some [("name", JSVal.str "co")]) = .ok (sql, values) ∧
       JSVal.str ("%" ++ jsToString (JSVal.str "co") ++ "%") ∈ values) ∧
    (∃ sql values, Job.findAllQuery [("title", JSVal.str "c")] = .ok (sql, values) ∧
       JSVal.str ("%" ++ jsToString (JSVal.str "c") ++ "%") ∈ values) := by
  have h := substring_match_wraps_truthy_value
    [("name", JSVal.str "co")] [("title", JSVal.str "c")]
    (JSVal.str "co") (JSVal.str "c")
    rfl (by decide) (by decide) rfl (by decide) (by decide)
  exact ⟨h.1, h.2.2.2.1⟩

/-! ## The hasEquity comparator and value-array alignment -/

/-- The value `Job.findAll` exposes for one filter entry after its title
mutation: a truthy `title` value is wildcard-wrapped, anything else passes
through untouched. -/
def jobFilterValue (p : String × JSVal) : JSVal :=
  if p.1 = "title" ∧ jsTruthy p.2 = true then .str ("%" ++ jsToString p.2 ++ "%") else p.2

theorem job_values_map (q : List (String × JSVal)) (hnd : (q.map Prod.fst).Nodup) :
    (Job.wrapTitleStep q).map Prod.snd = q.map jobFilterValue := by
  cases hlt : q.lookup "title" with
  | none =>
    have hnone := keys_lookup_none hlt
    simp only [Job.wrapTitleStep, hlt]
    exact List.map_congr_left fun p hp => by
      simp [jobFilterValue, hnone p hp]
  | some v =>
    have hmem := lookup_mem hlt
    by_cases htr : jsTruthy v = true
    · simp only [Job.wrapTitleStep, hlt, if_pos htr]
      have hstep : ∀ p ∈ q, Prod.snd ((fun p : String × JSVal =>
          if p.1 = "title" then (p.1, JSVal.str ("%" ++ jsToString v ++ "%")) else p) p)
            = jobFilterValue p := by
        intro p hp
        by_cases hk : p.1 = "title"
        · have hpv : p.2 = v := by
            have := nodup_lookup hnd (show ("title", p.2) ∈ q by
              have : p = ("title", p.2) := Prod.ext hk rfl
              exact this ▸ hp)
            rw [hlt] at this
            exact (Option.some.inj this).symm
          simp [hk, jobFilterValue, hpv, htr]
        · simp [hk, jobFilterValue]
      calc (setKey q "title" (.str ("%" ++ jsToString v ++ "%"))).map Prod.snd
          = q.map fun p => Prod.snd ((fun p : String × JSVal =>
              if p.1 = "title" then (p.1, JSVal.str ("%" ++ jsToString v ++ "%")) else p) p) := by
            simp [setKey, List.map_map]
        _ = q.map jobFilterValue := List.map_congr_left hstep
    · simp only [Job.wrapTitleStep, hlt, if_neg htr]
      exact List.map_congr_left fun p hp => by
        by_cases hk : p.1 = "title"
        · have hpv : p.2 = v := by
            have := nodup_lookup hnd (show ("title", p.2) ∈ q by
              have : p = ("title", p.2) := Prod.ext hk rfl
              exact this ▸ hp)
            rw [hlt] at this
            exact (Option.some.inj this).symm
          simp [jobFilterValue, hk, hpv, htr]
        · simp [jobFilterValue, hk]

/-- C3 (counterexample): the claim promises the literal `0` is bound at the
position named by the `hasEquity` placeholder. For the filter mapping
`{hasEquity: true, minSalary: 50000}` the `hasEquity` clause is `equity >
$1`, but position 1 receives the `minSalary` value 50000 — the `'0'` is
pushed last, to position 2, where the salary comparison reads it — because
the jobs model strips boolean-like values and appends `'0'` at the end
instead of at the `hasEquity` key's own position. -/
theorem hasEquity_binds_wrong_position :
    Job.findAllQuery [("hasEquity", JSVal.bool true), ("minSalary", JSVal.num 50000)]
      = .ok (Job.selectSql "WHERE equity > $1 AND salary >= $2",
             [JSVal.num 50000, JSVal.str "0"]) ∧
    Job.queryFragments [("hasEquity", JSVal.bool true), ("minSalary", JSVal.num 50000)]
      = ["equity > $1", "salary >= $2"] ∧
    ([JSVal.num 50000, JSVal.str "0"] : List JSVal)[0]? ≠ some (JSVal.str "0") :=
  ⟨rfl, rfl, by decide⟩

/-- C3 (amended): restricted to filter mappings over the recognized set in
which `hasEquity` is the last key and carries a boolean or boolean-string
value, `title` values are strings and `minSalary` values are not
boolean-like, the two comparator branches behave as claimed: a truthy
`hasEquity` yields `equity > $n`, a falsy one (`false` or `'false'`) yields
`equity = $n`, the literal `'0'` is bound at that placeholder's position `n`
(the last, `n` being the number of filters), placeholder count equals
bound-value count, and every earlier placeholder position receives the value
belonging to its own filter key. -/
theorem hasEquity_binding_when_last
    (q' : List (String × JSVal)) (hv : JSVal)
    (hkeys : ∀ p ∈ q', p.1 = "title" ∨ p.1 = "minSalary")
    (hnodup : ((q' ++ [("hasEquity", hv)]).map Prod.fst).Nodup)
    (htitle : ∀ p ∈ q', p.1 = "title" → ∃ s, p.2 = JSVal.str s)
    (hminsal : ∀ p ∈ q', p.1 = "minSalary" → boolLike p.2 = false)
    (hhv : boolLike hv = true) :
    (∃ sql, Job.findAllQuery (q' ++ [("hasEquity", hv)])
        = .ok (sql, q'.map jobFilterValue ++ [JSVal.str "0"])) ∧
    (Job.queryFragments (q' ++ [("hasEquity", hv)])).length
      = (q' ++ [("hasEquity", hv)]).length ∧
    (q'.map jobFilterValue ++ [JSVal.str "0"]).length
      = (q' ++ [("hasEquity", hv)]).length ∧
    (Job.queryFragments (q' ++ [("hasEquity", hv)])).getLast?
      = some ("equity " ++ (if hv = JSVal.str "false" ∨ jsTruthy hv = false then "=" else ">")
          ++ " " ++ "$" ++ decimalRepr (q'.length + 1)) ∧
    (q'.map jobFilterValue ++ [JSVal.str "0"]).getLast? = some (JSVal.str "0") ∧
    (∀ i (h : i < q'.length),
      (q'.map jobFilterValue ++ [JSVal.str "0"])[i]?
        = some (jobFilterValue (q'.get ⟨i, h⟩))) := by
  have hne : ∀ p ∈ q', p.1 ≠ "hasEquity" := fun p hp => by
    rcases hkeys p hp with h | h <;> simp [h]
  have hlook : (q' ++ [("hasEquity", hv)]).lookup "hasEquity" = some hv :=
    lookup_append_last hne
  have hchk : Job.checkForBadQueries ((q' ++ [("hasEquity", hv)]).map Prod.fst) = .ok () := by
    simp only [Job.checkForBadQueries]
    have hfil : (((q' ++ [("hasEquity", hv)]).map Prod.fst).filter fun k =>
        !(["title", "minSalary", "hasEquity"] : List String).contains k) = [] := by
      refine List.filter_eq_nil_iff.mpr fun k hk hcontra => ?_
      obtain ⟨p, hp, rfl⟩ := List.mem_map.mp hk
      rcases List.mem_append.mp hp with h | h
      · rcases hkeys p h with h1 | h1 <;> rw [h1] at hcontra <;> exact absurd hcontra (by decide)
      · simp at h
        rw [h] at hcontra
        simp at hcontra
    rw [hfil]
    simp
  have hvals : Job.queryValues (q' ++ [("hasEquity", hv)])
      = q'.map jobFilterValue ++ [JSVal.str "0"] := by
    simp only [Job.queryValues]
    rw [job_values_map _ hnodup, if_pos (by simp [hlook])]
    congr 1
    rw [List.map_append, List.filter_append]
    have h1 : (q'.map jobFilterValue).filter (fun v => !boolLike v) = q'.map jobFilterValue := by
      refine List.filter_eq_self.mpr fun v hv' => ?_
      obtain ⟨p, hp, rfl⟩ := List.mem_map.mp hv'
      rcases hkeys p hp with hk | hk
      · obtain ⟨s, hs⟩ := htitle p hp hk
        by_cases htr : jsTruthy p.2 = true
        · simp [jobFilterValue, hk, htr, wrapped_not_boolLike]
        · have hfv : jobFilterValue p = p.2 := by simp [jobFilterValue, htr]
          have hs0 : s = "" := by
            rw [hs] at htr
            simpa [jsTruthy] using htr
          rw [hfv, hs, hs0]
          decide
      · have hk' : ¬ (p.1 = "title" ∧ jsTruthy p.2 = true) := fun hcc => by
          rw [hk] at hcc
          exact absurd hcc.1 (by decide)
        simp only [jobFilterValue, if_neg hk']
        simp [hminsal p hp hk]
    have h2 : (([("hasEquity", hv)] : List (String × JSVal)).map jobFilterValue).filter
        (fun v => !boolLike v) = [] := by
      have hfv : jobFilterValue ("hasEquity", hv) = hv := by
        simp [jobFilterValue]
      simp [hfv, hhv]
    rw [h1, h2, List.append_nil]
  have hmk : Job.makeKeyStatementsForWhereClauses (q' ++ [("hasEquity", hv)]) "hasEquity" q'.length
      = "equity " ++ (if hv = JSVal.str "false" ∨ jsTruthy hv = false then "=" else ">")
        ++ " " ++ "$" ++ decimalRepr (q'.length + 1) := by
    simp [Job.makeKeyStatementsForWhereClauses, hlook, jsTruthyOpt]
  have hfrag : Job.queryFragments (q' ++ [("hasEquity", hv)])
      = ((q'.map Prod.fst).enum.map fun p =>
          Job.makeKeyStatementsForWhereClauses (q' ++ [("hasEquity", hv)]) p.2 p.1)
        ++ ["equity " ++ (if hv = JSVal.str "false" ∨ jsTruthy hv = false then "=" else ">")
            ++ " " ++ "$" ++ decimalRepr (q'.length + 1)] := by
    simp only [Job.queryFragments, List.map_append, List.map_cons, List.map_nil,
      List.enum_append, List.enumFrom, List.length_map]
    rw [hmk]
  refine ⟨⟨Job.selectSql (if (String.intercalate " AND "
      (Job.queryFragments (q' ++ [("hasEquity", hv)]))).length ≠ 0
      then "WHERE " ++ String.intercalate " AND " (Job.queryFragments (q' ++ [("hasEquity", hv)]))
      else ""), ?_⟩, ?_, ?_, ?_, List.getLast?_concat _, ?_⟩
  · simp only [Job.findAllQuery, hchk, Bind.bind, Except.bind, hvals]
  · simp [Job.queryFragments]
  · simp
  · rw [hfrag]
    exact List.getLast?_concat _
  · intro i h
    rw [List.getElem?_append_left (by simpa using h), List.getElem?_map,
      List.getElem?_eq_getElem h]
    simp

/-- Witness for the amended hasEquity claim at a concrete input: the filter
mapping `{title:"c", minSalary:50000, hasEquity:true}` (hasEquity last, as in
the model's own tests) binds `[%c%, 50000, '0']` and its last clause is
`equity > $3`. -/
theorem hasEquity_binding_when_last_witness :
    (∃ sql, Job.findAllQuery ([("title", JSVal.str "c"), ("minSalary", JSVal.num 50000)]
          ++ [("hasEquity", JSVal.bool true)])
        = .ok (sql, [("title", JSVal.str "c"), ("minSalary", JSVal.num 50000)].map jobFilterValue
            ++ [JSVal.str "0"])) ∧
    (Job.queryFragments ([("title", JSVal.str "c"), ("minSalary", JSVal.num 50000)]
          ++ [("hasEquity", JSVal.bool true)])).getLast?
      = some ("equity "
          ++ (if JSVal.bool true = JSVal.str "false" ∨ jsTruthy (JSVal.bool true) = false
              then "=" else ">")
          ++ " " ++ "$"
          ++ decimalRepr ([("title", JSVal.str "c"), ("minSalary", JSVal.num 50000)].length + 1)) := by
  have h := hasEquity_binding_when_last
    [("title", JSVal.str "c"), ("minSalary", JSVal.num 50000)] (JSVal.bool true)
    (by decide) (by decide)
    (by
      intro p hp hk
      simp only [List.mem_cons, List.not_mem_nil, or_false] at hp
      rcases hp with h | h
      · exact ⟨"c", by rw [h]⟩
      · rw [h] at hk
        exact absurd hk (by decide))
    (by decide) (by decide)
  exact ⟨h.1, h.2.2.2.1⟩
